import Mathlib

/-!
# Verification of the equipy sequential Wasserstein fairness-adjustment core

This file gives a shallow embedding, over `ℚ`, of the core of the `equipy`
repository (`equipy/fairness/_base.py`, `equipy/fairness/_wasserstein.py`,
`equipy/fairness/_more_wasserstein.py`, `equipy/metrics/_fairness_metrics.py`,
`equipy/utils/checkers.py`) and proves properties of the embedded code.

Modelling conventions:
* numpy float arrays become `List ℚ`; machine floating point is replaced by
  exact rational arithmetic.
* the random draws (`np.random.uniform(-sigma, sigma, n)`) are passed as
  explicit list parameters (`noise`, `jitter`), so every statement is about a
  fixed draw.
* Python exceptions become an explicit `Except FairnessError` result; each
  distinct `raise` site of the source gets its own constructor.
* Python calls are modelled with their actual arity.  Where the source
  mis-calls a helper — `self._get_mod(self, ...)` and friends hand a bound
  method its receiver a second time (`_wasserstein.py` lines 73-75, 122,
  125), and `_check_epsilon_size(epsilon, x_sa_test)` passes two arguments
  to a function with three required parameters (`_wasserstein.py:282`,
  `checkers.py:74`) — the embedding fails with `typeError` at exactly that
  point, like the unconditional Python `TypeError`.  The bodies such calls
  were meant to reach are embedded separately as clearly named `...Intended`
  definitions (the binding the helpers' own signatures and the class
  docstrings' worked examples document), used to state what the spec
  describes and to compare intent against the code as written.
-/

/-- The failure modes of the embedded code.  Each constructor corresponds to a
distinct `raise` site (or attribute/lookup failure) of the Python source. -/
inductive FairnessError
  /-- Site `_check_shape`: mismatched input arrays (`ValueError`). -/
  | shapeError
  /-- Site `_check_epsilon`: epsilon outside `[0, 1]` (`ValueError`). -/
  | rangeError
  /-- Site `_check_mod`: a test modality absent from calibration (`ValueError`). -/
  | unseenModality
  /-- Site `_check_epsilon_size`: epsilon length differs from the number of
  sensitive columns (`ValueError`). -/
  | sizeMismatch
  /-- Site `_check_nb_observations`: fewer than 2 calibration observations. -/
  | insufficientData
  /-- reading an instance attribute that was never assigned
  (Python `AttributeError`). -/
  | attributeError
  /-- a `dict` lookup on a key that was never stored (Python `KeyError`). -/
  | keyError
  /-- referencing the loop variable of a `for` loop that never ran
  (Python `NameError`). -/
  | nameError
  /-- calling a function or bound method with the wrong number of arguments
  (Python `TypeError`). -/
  | typeError
  deriving DecidableEq

/-- Embeds `BaseHelper._get_mod` (`_base.py`): `list(set(x_ssa))`, the distinct
modalities of a sensitive-attribute vector.  Python's set order is unspecified;
we use first-occurrence order. -/
def getMod {α : Type} [DecidableEq α] (x_ssa : List α) : List α :=
  x_ssa.dedup

/-- Embeds `BaseHelper._get_loc` (`_base.py`): `np.where(x_ssa == mod)[0]`, the
indices at which a modality occurs. -/
def locOf {α : Type} [DecidableEq α] (x_ssa : List α) (mod : α) : List ℕ :=
  (List.range x_ssa.length).filter (fun i => decide (x_ssa.get? i = some mod))

/-- Embeds `BaseHelper._get_weights` (`_base.py`):
`len(sens_loc[mod]) / len(x_ssa)`. -/
def getWeights {α : Type} [DecidableEq α] (x_ssa : List α) : α → ℚ :=
  fun mod => ((locOf x_ssa mod).length : ℚ) / (x_ssa.length : ℚ)

/-- The noised labels `y[sens_loc[mod]] + eps[sens_loc[mod]]` used by
`BaseHelper._estimate_ecdf_eqf`, for an index set `idxs`. -/
def noisedVals (y noise : List ℚ) (idxs : List ℕ) : List ℚ :=
  idxs.map (fun i => y.getD i 0 + noise.getD i 0)

/-- Models `statsmodels.distributions.empirical_distribution.ECDF`: the
right-continuous empirical CDF, `t ↦ #{d ∈ data | d ≤ t} / #data`. -/
def ecdfOf (data : List ℚ) : ℚ → ℚ :=
  fun t => ((data.countP (fun d => decide (d ≤ t))) : ℚ) / (data.length : ℚ)

/-- Models `scipy.interpolate.interp1d` (linear interpolation) on a list of
`(x, y)` knots with strictly increasing `x`: for a query `t`, use the first
segment whose right endpoint is `≥ t`.  `interp1d` raises outside the knot
range; this total model extrapolates linearly there instead (no theorem below
queries outside the knot range). -/
def interpPts : List (ℚ × ℚ) → ℚ → ℚ
  | [], _ => 0
  | [p], _ => p.2
  | p :: q :: rest, t =>
    if t ≤ q.1 then p.2 + (t - p.1) * (q.2 - p.2) / (q.1 - p.1)
    else interpPts (q :: rest) t

/-- The sorted sample of `EQF._calculate_eqf` (`np.sort(sample_data)`). -/
def sortedOf (sample : List ℚ) : List ℚ :=
  sample.mergeSort (fun a b => decide (a ≤ b))

/-- The interpolation knots of `EQF._calculate_eqf`
(`_fairness_metrics.py`): the sorted sample placed at the equally spaced
quantile positions `np.linspace(0, 1, num=len(sample_data))`, whose `j`-th
entry is `j / (n - 1)`. -/
def eqfKnots (sample : List ℚ) : List (ℚ × ℚ) :=
  (List.range sample.length).map
    (fun (j : ℕ) =>
      ((j : ℚ) / ((sample.length : ℚ) - 1), (sortedOf sample).getD j 0))

/-- Embeds the `EQF` class (`_fairness_metrics.py`): `__call__` evaluates the
`interp1d` interpolater built by `_calculate_eqf`. -/
def eqfOf (sample : List ℚ) : ℚ → ℚ :=
  interpPts (eqfKnots sample)

/-- The calibration state a fitted `Wasserstein` adjuster stores and
`MultiWasserStein` caches per column: `sens_val_calib`, `weights`, and the
per-modality `ecdf` / `eqf` tables (`_wasserstein.py`, `_base.py`). -/
structure CalibState (α : Type) where
  sens_val_calib : List α
  weights : α → ℚ
  ecdf : α → ℚ → ℚ
  eqf : α → ℚ → ℚ

/-- Embeds `Wasserstein.fit` (`_wasserstein.py`) as written: `_check_shape`
runs first, then line 73 evaluates `self._get_mod(self, x_ssa_calib)` — a
bound method handed its receiver a second time, three arguments for the
two-parameter `_get_mod` — an unconditional Python `TypeError` (lines 74-75
repeat the slip).  The real `fit` therefore never produces a calibration
state.  `_check_shape` also rejects non-array and non-float inputs, which
have no counterpart in this typed embedding. -/
def wassersteinFit {α : Type} [DecidableEq α] (y_calib : List ℚ) (x_ssa_calib : List α)
    (_noise : List ℚ) : Except FairnessError (CalibState α) :=
  if y_calib.length ≠ x_ssa_calib.length then .error .shapeError
  else .error .typeError

/-- The body of `Wasserstein.fit` under the receiver binding its helpers
declare (`_get_mod(self, x_ssa)` reached as `self._get_mod(x_ssa)`): check
shapes, then store the modalities, weights, and per-modality ECDF/EQF built
from the noised calibration labels (`BaseHelper._estimate_ecdf_eqf` with a
single shared noise draw `noise`).  This is the behaviour the class
docstring's worked example documents; the extra-receiver slip in the source
defeats it. -/
def wassersteinFitIntended {α : Type} [DecidableEq α] (y_calib : List ℚ)
    (x_ssa_calib : List α) (noise : List ℚ) :
    Except FairnessError (CalibState α) :=
  if y_calib.length ≠ x_ssa_calib.length then .error .shapeError
  else .ok
    { sens_val_calib := getMod x_ssa_calib
      weights := getWeights x_ssa_calib
      ecdf := fun mod => ecdfOf (noisedVals y_calib noise (locOf x_ssa_calib mod))
      eqf := fun mod => eqfOf (noisedVals y_calib noise (locOf x_ssa_calib mod)) }

/-- The accumulation loop of `Wasserstein.transform` (`_wasserstein.py`):
starting from `y_fair = np.zeros_like(y_test)`, for `mod1` and `mod2` ranging
over the test modalities,
`y_fair[sens_loc[mod1]] += weights[mod2] * eqf[mod2](ecdf[mod1](y_test[...] + eps[...]))`.
The result is the final accumulator as a function of the individual's index. -/
def rawFairAt {α : Type} [DecidableEq α] (st : CalibState α) (y_test : List ℚ)
    (x_ssa_test : List α) (jitter : List ℚ) : ℕ → ℚ :=
  (getMod x_ssa_test).foldl
    (fun acc mod1 =>
      (getMod x_ssa_test).foldl
        (fun acc2 mod2 => fun i =>
          if i ∈ locOf x_ssa_test mod1 then
            acc2 i + st.weights mod2 *
              st.eqf mod2 (st.ecdf mod1 (y_test.getD i 0 + jitter.getD i 0))
          else acc2 i)
        acc)
    (fun _ => 0)

/-- Embeds `Wasserstein.transform` (`_wasserstein.py`) as written:
`_check_epsilon` (line 120) and `_check_shape` (line 121) run, then line 122
evaluates `self._get_mod(self, x_ssa_test)` — three arguments for the
two-parameter bound method — an unconditional Python `TypeError` (line 125
repeats the slip with `_get_loc`).  The real `transform` never reaches
`_check_mod` (line 123), the barycenter loop, or a return. -/
def wassersteinTransform {α : Type} [DecidableEq α] (_st : CalibState α)
    (y_test : List ℚ) (x_ssa_test : List α) (_jitter : List ℚ) (epsilon : ℚ) :
    Except FairnessError (List ℚ) :=
  if epsilon < 0 ∨ 1 < epsilon then .error .rangeError
  else if y_test.length ≠ x_ssa_test.length then .error .shapeError
  else .error .typeError

/-- The body of `Wasserstein.transform` under the receiver binding its
helpers declare: validate epsilon (`_check_epsilon`), shapes
(`_check_shape`), and test modalities (`_check_mod`), then return
`(1-epsilon)*y_fair + epsilon*y_test` where `y_fair` is the barycenter
accumulation `rawFairAt`.  The random draw
`eps = np.random.uniform(-sigma, sigma, len(y_test))` is the explicit
`jitter` parameter.  This is the behaviour the method's own docstring
example documents (expected output `[0.2606.., 0.6914.., 0.6894..,
0.2666..]`, which this embedding reproduces); the extra-receiver slip at
line 122 defeats it. -/
def wassersteinTransformIntended {α : Type} [DecidableEq α] (st : CalibState α)
    (y_test : List ℚ) (x_ssa_test : List α) (jitter : List ℚ) (epsilon : ℚ) :
    Except FairnessError (List ℚ) :=
  if epsilon < 0 ∨ 1 < epsilon then .error .rangeError
  else if y_test.length ≠ x_ssa_test.length then .error .shapeError
  else if ∀ mod ∈ getMod x_ssa_test, mod ∈ st.sens_val_calib then
    .ok (List.zipWith (fun fv yv => (1 - epsilon) * fv + epsilon * yv)
      ((List.range y_test.length).map (rawFairAt st y_test x_ssa_test jitter))
      y_test)
  else .error .unseenModality

/-- The raw fair value as the specification states it: for an individual of
modality `m`, the weighted barycenter over the test modalities `m'` of
`EQF_{m'}(CDF_m(label + jitter))`, weighted by `weight_{m'}`. -/
def specFairValue {α : Type} [DecidableEq α] (st : CalibState α) (y_test : List ℚ)
    (x_ssa_test : List α) (jitter : List ℚ) (i : ℕ) : ℚ :=
  match x_ssa_test.get? i with
  | some m =>
    ((getMod x_ssa_test).map
      (fun m2 => st.weights m2 *
        st.eqf m2 (st.ecdf m (y_test.getD i 0 + jitter.getD i 0)))).sum
  | none => 0

/-- The transform output as the specification states it:
`(1-epsilon)*fair_value + epsilon*original_value`, elementwise. -/
def specTransformOutput {α : Type} [DecidableEq α] (st : CalibState α) (y_test : List ℚ)
    (x_ssa_test : List α) (jitter : List ℚ) (epsilon : ℚ) : List ℚ :=
  (List.range y_test.length).map
    (fun i => (1 - epsilon) * specFairValue st y_test x_ssa_test jitter i +
      epsilon * y_test.getD i 0)

/-- The ℓ¹ distance between two label vectors, used to compare a transform
output with the unadjusted input. -/
def distL1 (a b : List ℚ) : ℚ :=
  (List.zipWith (fun u v => |u - v|) a b).sum

/-! ### Linear interpolation evaluated at a knot -/

/-- Evaluating `interpPts` on strictly increasing knots reproduces every knot value
exactly. -/
theorem interpPts_knot : ∀ (pts : List (ℚ × ℚ)),
    pts.Pairwise (fun a b => a.1 < b.1) →
    ∀ (j : ℕ) (hj : j < pts.length),
    interpPts pts (pts.get ⟨j, hj⟩).1 = (pts.get ⟨j, hj⟩).2
  | [], _, j, hj => absurd hj (Nat.not_lt_zero j)
  | [_], _, 0, _ => rfl
  | p :: q :: rest, hinc, 0, _ => by
    have hpq : p.1 < q.1 :=
      (List.pairwise_cons.mp hinc).1 q (List.mem_cons_self q rest)
    show interpPts (p :: q :: rest) p.1 = p.2
    rw [interpPts, if_pos (le_of_lt hpq)]
    simp
  | p :: q :: rest, hinc, 1, _ => by
    have hpq : p.1 < q.1 :=
      (List.pairwise_cons.mp hinc).1 q (List.mem_cons_self q rest)
    show interpPts (p :: q :: rest) q.1 = q.2
    rw [interpPts, if_pos (le_refl q.1)]
    have hne : q.1 - p.1 ≠ 0 := sub_ne_zero.mpr (ne_of_gt hpq)
    field_simp
  | p :: q :: rest, hinc, (j+2), hj => by
    have hj' : j < rest.length := by
      simpa using Nat.lt_of_add_lt_add_right hj
    have htail : (q :: rest).Pairwise (fun a b => a.1 < b.1) :=
      List.Pairwise.of_cons hinc
    have hq : q.1 < (rest.get ⟨j, hj'⟩).1 :=
      (List.pairwise_cons.mp htail).1 _ (rest.get_mem j hj')
    show interpPts (p :: q :: rest) ((rest.get ⟨j, hj'⟩).1) =
      (rest.get ⟨j, hj'⟩).2
    rw [interpPts, if_neg (not_le.mpr hq)]
    exact interpPts_knot (q :: rest) htail (j + 1) (by simpa using hj')

/-- The EQF knot abscissas `j / (n-1)` are strictly increasing when the sample
has at least two points. -/
theorem eqfKnots_pairwise (sample : List ℚ) (h2 : 2 ≤ sample.length) :
    (eqfKnots sample).Pairwise (fun a b => a.1 < b.1) := by
  have hpos : (0 : ℚ) < (sample.length : ℚ) - 1 := by
    have : (2 : ℚ) ≤ (sample.length : ℚ) := by exact_mod_cast h2
    linarith
  unfold eqfKnots
  rw [List.pairwise_map]
  refine (List.pairwise_lt_range sample.length).imp ?_
  intro i j hij
  exact (div_lt_div_iff_of_pos_right hpos).mpr (by exact_mod_cast hij)

/-- C5. For a sample of `n ≥ 2` distinct values, the EQF places the sorted
values at the equally spaced quantile knots `i / (n-1)` with linear
interpolation between them, so `EQF(i/(n-1))` is exactly the `i`-th smallest
sample value (in particular quantiles 0 and 1 reproduce the sample minimum
and maximum). -/
theorem claim5_eqf_roundtrip (sample : List ℚ) (h2 : 2 ≤ sample.length)
    (_hnd : sample.Nodup) (i : ℕ) (hi : i < sample.length) :
    eqfOf sample ((i : ℚ) / ((sample.length : ℚ) - 1)) =
      (sortedOf sample).getD i 0 := by
  have hlen : (eqfKnots sample).length = sample.length := by
    simp [eqfKnots]
  have hi' : i < (eqfKnots sample).length := by rw [hlen]; exact hi
  have hget : (eqfKnots sample).get ⟨i, hi'⟩ =
      ((i : ℚ) / ((sample.length : ℚ) - 1), (sortedOf sample).getD i 0) := by
    simp [eqfKnots]
  have h := interpPts_knot (eqfKnots sample) (eqfKnots_pairwise sample h2) i hi'
  rw [hget] at h
  exact h

/-- Witness for C5 at the concrete sample `[3, 1, 2]`, `i = 1`: the EQF at
quantile `1/2` returns the middle value `2`. -/
theorem claim5_eqf_roundtrip_witness :
    2 ≤ ([3, 1, 2] : List ℚ).length ∧ ([3, 1, 2] : List ℚ).Nodup ∧
      eqfOf [3, 1, 2] ((1 : ℚ) / ((([3, 1, 2] : List ℚ).length : ℚ) - 1)) =
        (sortedOf [3, 1, 2]).getD 1 0 ∧
      eqfOf [3, 1, 2] ((1 : ℚ) / 2) = 2 :=
  ⟨by decide, by decide,
    claim5_eqf_roundtrip [3, 1, 2] (by decide) (by decide) 1 (by decide),
    by norm_num [eqfOf, eqfKnots, sortedOf, List.mergeSort, interpPts,
      List.range_succ]⟩

/-! ### Modality weights -/

/-- Helper `_get_loc` returns as many indices for a modality as the modality has
occurrences. -/
theorem locOf_length_count {α : Type} [DecidableEq α] (x_ssa : List α) (mod : α) :
    (locOf x_ssa mod).length = x_ssa.count mod := by
  induction x_ssa using List.reverseRecOn with
  | nil => rfl
  | append_singleton l a ih =>
    unfold locOf at ih ⊢
    rw [List.length_append, List.length_singleton, List.range_succ,
      List.filter_append, List.length_append]
    have hcongr : (List.range l.length).filter
        (fun i => decide ((l ++ [a]).get? i = some mod)) =
        (List.range l.length).filter (fun i => decide (l.get? i = some mod)) := by
      apply List.filter_congr
      intro i hi
      rw [List.get?_append (List.mem_range.mp hi)]
    have hlast : ((l ++ [a]).get? l.length = some mod) ↔ (a = mod) := by
      rw [List.get?_concat_length]
      exact ⟨fun h => by injection h, fun h => by rw [h]⟩
    rw [hcongr, ih, List.count_append, List.count_singleton']
    by_cases hmod : a = mod
    · simp [hmod, List.filter, hlast]
    · simp only [List.filter, decide_eq_true_eq, hlast, hmod]
      simp [hmod]

/-- C6. For every nonempty attribute vector, the per-modality weights computed
at fit time (occurrence count over total count) sum to 1 over the attribute's
modalities — in exact rational arithmetic, hence certainly within `1e-9`. -/
theorem claim6_weights_sum_one {α : Type} [DecidableEq α] (x_ssa : List α)
    (hx : x_ssa ≠ []) :
    |((getMod x_ssa).map (getWeights x_ssa)).sum - 1| ≤ 1 / 1000000000 := by
  have hL : (x_ssa.length : ℚ) ≠ 0 := by
    have := List.length_pos.mpr hx
    exact_mod_cast Nat.pos_iff_ne_zero.mp this
  have hsum : ((getMod x_ssa).map (getWeights x_ssa)).sum = 1 := by
    unfold getMod getWeights
    have hcongr : x_ssa.dedup.map
        (fun mod => ((locOf x_ssa mod).length : ℚ) / (x_ssa.length : ℚ)) =
        x_ssa.dedup.map
        (fun mod => ((x_ssa.count mod : ℚ)) * (1 / (x_ssa.length : ℚ))) := by
      apply List.map_congr_left
      intro m _
      rw [locOf_length_count, mul_one_div]
    rw [hcongr, List.sum_map_mul_right]
    have hcast : (x_ssa.dedup.map (fun mod => ((x_ssa.count mod : ℕ) : ℚ))).sum =
        ((x_ssa.dedup.map (fun mod => x_ssa.count mod)).sum : ℚ) := by
      rw [Nat.cast_list_sum, List.map_map]
      rfl
    rw [hcast, List.sum_map_count_dedup_eq_length]
    field_simp
  rw [hsum]
  norm_num

/-- Witness for C6 at the concrete attribute vector `[1, 2, 2, 3]`. -/
theorem claim6_weights_sum_one_witness :
    ([1, 2, 2, 3] : List ℕ) ≠ [] ∧
      |((getMod ([1, 2, 2, 3] : List ℕ)).map
          (getWeights ([1, 2, 2, 3] : List ℕ))).sum - 1| ≤ 1 / 1000000000 :=
  ⟨by decide, claim6_weights_sum_one [1, 2, 2, 3] (by decide)⟩

/-! ### The barycenter accumulation loop -/

/-- An index belongs to a modality's location set exactly when the attribute
vector holds that modality at the index. -/
theorem mem_locOf {α : Type} [DecidableEq α] (x_ssa : List α) (mod : α) (i : ℕ) :
    i ∈ locOf x_ssa mod ↔ x_ssa.get? i = some mod := by
  unfold locOf
  rw [List.mem_filter, List.mem_range, decide_eq_true_eq]
  constructor
  · rintro ⟨-, h⟩
    exact h
  · intro h
    obtain ⟨hlt, -⟩ := List.get?_eq_some.mp h
    exact ⟨hlt, h⟩

/-- Unrolling one modality's inner accumulation loop: each index in the
location set gains the sum of the loop's contributions. -/
theorem innerFold_apply {γ : Type} (M : List γ) (mem : List ℕ) (g : γ → ℕ → ℚ) :
    ∀ (acc : ℕ → ℚ) (i : ℕ),
      (M.foldl (fun a2 m2 => fun j =>
        if j ∈ mem then a2 j + g m2 j else a2 j) acc) i =
        acc i + (if i ∈ mem then (M.map (fun m2 => g m2 i)).sum else 0) := by
  induction M with
  | nil =>
    intro acc i
    simp
  | cons b bs ih =>
    intro acc i
    rw [List.foldl_cons, ih, List.map_cons, List.sum_cons]
    by_cases h : i ∈ mem
    · simp [h, add_assoc]
    · simp [h]

/-- Unrolling the double accumulation loop of `Wasserstein.transform`: the
final accumulator at index `i` is the sum, over the outer modalities whose
location set contains `i`, of the inner contributions. -/
theorem doubleFold_apply {β γ : Type} (M : List γ) (memF : β → List ℕ)
    (g : β → γ → ℕ → ℚ) :
    ∀ (L : List β) (acc : ℕ → ℚ) (i : ℕ),
      (L.foldl (fun a m1 => M.foldl (fun a2 m2 => fun j =>
        if j ∈ memF m1 then a2 j + g m1 m2 j else a2 j) a) acc) i =
        acc i + (L.map (fun m1 =>
          if i ∈ memF m1 then (M.map (fun m2 => g m1 m2 i)).sum else 0)).sum := by
  intro L
  induction L with
  | nil =>
    intro acc i
    simp
  | cons b bs ih =>
    intro acc i
    rw [List.foldl_cons, ih, List.map_cons, List.sum_cons, innerFold_apply,
      add_assoc]

/-- Summing an indicator-selected list over a duplicate-free list picks out
exactly the selected element's value. -/
theorem sum_map_ite_eq {α : Type} [DecidableEq α] (f : α → ℚ) (m : α) :
    ∀ (L : List α), L.Nodup → m ∈ L →
      (L.map (fun t => if t = m then f t else 0)).sum = f m := by
  intro L
  induction L with
  | nil =>
    intro _ hm
    cases hm
  | cons a as ih =>
    intro hnd hm
    rw [List.map_cons, List.sum_cons]
    rcases List.mem_cons.mp hm with hma | hmas
    · have hnotin : m ∉ as := by rw [hma]; exact (List.nodup_cons.mp hnd).1
      have hzero : (as.map (fun t => if t = m then f t else 0)).sum = 0 := by
        apply List.sum_eq_zero
        intro q hq
        obtain ⟨t, ht, rfl⟩ := List.mem_map.mp hq
        have : t ≠ m := fun h => hnotin (h ▸ ht)
        simp [this]
      rw [hzero, ← hma, if_pos rfl, add_zero]
    · have hne : a ≠ m := by
        intro h
        exact (List.nodup_cons.mp hnd).1 (h ▸ hmas)
      rw [if_neg hne, zero_add]
      exact ih (List.nodup_cons.mp hnd).2 hmas

/-- The accumulation loop of `Wasserstein.transform` computes, at every
in-range index, exactly the specification's weighted barycenter. -/
theorem rawFairAt_eq_spec {α : Type} [DecidableEq α] (st : CalibState α)
    (y_test : List ℚ) (x_ssa_test : List α) (jitter : List ℚ) (i : ℕ)
    (hi : i < x_ssa_test.length) :
    rawFairAt st y_test x_ssa_test jitter i =
      specFairValue st y_test x_ssa_test jitter i := by
  obtain ⟨m, hm⟩ : ∃ m, x_ssa_test.get? i = some m :=
    ⟨x_ssa_test.get ⟨i, hi⟩, List.get?_eq_get hi⟩
  have hmem : m ∈ getMod x_ssa_test :=
    List.mem_dedup.mpr (List.get?_mem hm)
  have hnd : (getMod x_ssa_test).Nodup := List.nodup_dedup x_ssa_test
  unfold rawFairAt
  rw [doubleFold_apply]
  have hcongr : (getMod x_ssa_test).map (fun m1 =>
      if i ∈ locOf x_ssa_test m1 then
        ((getMod x_ssa_test).map (fun m2 => st.weights m2 *
          st.eqf m2 (st.ecdf m1 (y_test.getD i 0 + jitter.getD i 0)))).sum
      else 0) =
      (getMod x_ssa_test).map (fun m1 =>
      if m1 = m then
        ((getMod x_ssa_test).map (fun m2 => st.weights m2 *
          st.eqf m2 (st.ecdf m1 (y_test.getD i 0 + jitter.getD i 0)))).sum
      else 0) := by
    apply List.map_congr_left
    intro t _
    have : (i ∈ locOf x_ssa_test t) ↔ (t = m) := by
      rw [mem_locOf, hm]
      exact ⟨fun h => by injection h with h; exact h.symm, fun h => by rw [h]⟩
    rw [if_congr this rfl rfl]
  rw [hcongr, sum_map_ite_eq _ m _ hnd hmem]
  unfold specFairValue
  rw [hm]
  simp

/-- Zipping against a map over the index range collapses to a single map
over the index range. -/
theorem zipWith_map_range (f : ℚ → ℚ → ℚ) :
    ∀ (y : List ℚ) (g : ℕ → ℚ),
      List.zipWith f ((List.range y.length).map g) y =
        (List.range y.length).map (fun i => f (g i) (y.getD i 0)) := by
  intro y
  induction y with
  | nil =>
    intro g
    rfl
  | cons a ys ih =>
    intro g
    rw [List.length_cons, List.range_succ_eq_map, List.map_cons,
      List.zipWith_cons_cons, List.map_cons, List.map_map, List.map_map]
    congr 1
    exact ih (g ∘ Nat.succ)

/-- C1, settled as a code bug.  The code as written: with a valid epsilon and
matching shapes, every `Wasserstein.transform` call raises `TypeError` at
`self._get_mod(self, x_ssa_test)` (line 122), before the barycenter loop.
The intent (per the spec and the method's own worked docstring example),
embedded as `wassersteinTransformIntended`: for each individual of modality
`m`, the raw fair value is the weighted barycenter over the test modalities
`m'` of `EQF_{m'}(CDF_m(y_i + jitter_i))` weighted by `weight_{m'}`, and the
returned vector is `(1-epsilon)*fair_value + epsilon*y` elementwise. -/
theorem claim1_transform_code_vs_intent {α : Type} [DecidableEq α]
    (st : CalibState α) (y_test : List ℚ) (x_ssa_test : List α)
    (jitter : List ℚ) (epsilon : ℚ) (heps0 : 0 ≤ epsilon) (heps1 : epsilon ≤ 1)
    (hlen : y_test.length = x_ssa_test.length)
    (hmods : ∀ mod ∈ getMod x_ssa_test, mod ∈ st.sens_val_calib) :
    wassersteinTransform st y_test x_ssa_test jitter epsilon =
      .error .typeError ∧
    wassersteinTransformIntended st y_test x_ssa_test jitter epsilon =
      .ok (specTransformOutput st y_test x_ssa_test jitter epsilon) := by
  constructor
  · unfold wassersteinTransform
    rw [if_neg (by push_neg; exact ⟨heps0, heps1⟩), if_neg (by simp [hlen])]
  · unfold wassersteinTransformIntended
    rw [if_neg (by push_neg; exact ⟨heps0, heps1⟩), if_neg (by simp [hlen]),
      if_pos hmods]
    congr 1
    rw [zipWith_map_range]
    unfold specTransformOutput
    apply List.map_congr_left
    intro i hi
    rw [rawFairAt_eq_spec st y_test x_ssa_test jitter i
      (hlen ▸ List.mem_range.mp hi)]

/-- Witness for C1: a concrete two-modality state and test set; hypotheses
hold, the code path raises the type error, and the intended binding yields
the concrete barycenter interpolation. -/
theorem claim1_transform_code_vs_intent_witness :
    (0 : ℚ) ≤ 1 / 2 ∧ (1 : ℚ) / 2 ≤ 1 ∧
      ([10, 20] : List ℚ).length = ([1, 2] : List ℕ).length ∧
      (∀ mod ∈ getMod ([1, 2] : List ℕ),
        mod ∈ (CalibState.mk [1, 2] (fun _ => 1 / 2) (fun _ t => t)
          (fun _ q => q) : CalibState ℕ).sens_val_calib) ∧
      wassersteinTransform
          (CalibState.mk [1, 2] (fun _ => 1 / 2) (fun _ t => t) (fun _ q => q))
          [10, 20] [1, 2] [0, 0] (1 / 2) = .error .typeError ∧
      wassersteinTransformIntended
          (CalibState.mk [1, 2] (fun _ => 1 / 2) (fun _ t => t) (fun _ q => q))
          [10, 20] [1, 2] [0, 0] (1 / 2) =
        .ok (specTransformOutput
          (CalibState.mk [1, 2] (fun _ => 1 / 2) (fun _ t => t) (fun _ q => q))
          [10, 20] [1, 2] [0, 0] (1 / 2)) :=
  ⟨by norm_num, by norm_num, by decide, by decide,
    (claim1_transform_code_vs_intent _ [10, 20] [1, 2] [0, 0] (1 / 2)
      (by norm_num) (by norm_num) (by decide) (by decide)).1,
    (claim1_transform_code_vs_intent _ [10, 20] [1, 2] [0, 0] (1 / 2)
      (by norm_num) (by norm_num) (by decide) (by decide)).2⟩

/-! ### The epsilon trade-off -/

/-- The ℓ¹ distance is nonnegative. -/
theorem distL1_nonneg : ∀ (a b : List ℚ), 0 ≤ distL1 a b := by
  intro a
  induction a with
  | nil =>
    intro b
    simp [distL1]
  | cons u us ih =>
    intro b
    cases b with
    | nil => simp [distL1]
    | cons v vs =>
      unfold distL1 at ih ⊢
      rw [List.zipWith_cons_cons, List.sum_cons]
      exact add_nonneg (abs_nonneg _) (ih vs)

/-- Interpolating between a fair vector and the original vector scales the ℓ¹
distance to the original by the factor `1 - epsilon`. -/
theorem distL1_interp (e : ℚ) (he : e ≤ 1) :
    ∀ (F Y : List ℚ),
      distL1 (List.zipWith (fun fv yv => (1 - e) * fv + e * yv) F Y) Y =
        (1 - e) * distL1 F Y := by
  intro F
  induction F with
  | nil =>
    intro Y
    cases Y <;> simp [distL1]
  | cons f fs ih =>
    intro Y
    cases Y with
    | nil => simp [distL1]
    | cons y ys =>
      unfold distL1 at ih ⊢
      simp only [List.zipWith_cons_cons, List.sum_cons]
      rw [ih ys]
      have h1 : (1 - e) * f + e * y - y = (1 - e) * (f - y) := by ring
      rw [h1, abs_mul, abs_of_nonneg (by linarith : (0 : ℚ) ≤ 1 - e)]
      ring

/-- C2, amended.  The transform as written returns no output at all (every
call raises `TypeError` at line 122, see `claim2_counterexample`); under the
intended receiver binding that the docstrings document, for a fixed adjuster
state, fixed test data and a fixed jitter draw, the distance between the
transform output and the unadjusted input is NON-INCREASING as epsilon grows
from 0 to 1 — not non-decreasing as the claim asserted
(`claim2_counterexample` refutes that direction on a concretely fitted
adjuster). -/
theorem claim2_epsilon_tradeoff {α : Type} [DecidableEq α] (st : CalibState α)
    (y_test : List ℚ) (x_ssa_test : List α) (jitter : List ℚ) (e1 e2 : ℚ)
    (h01 : 0 ≤ e1) (h12 : e1 ≤ e2) (h21 : e2 ≤ 1) (o1 o2 : List ℚ)
    (h1 : wassersteinTransformIntended st y_test x_ssa_test jitter e1 = .ok o1)
    (h2 : wassersteinTransformIntended st y_test x_ssa_test jitter e2 = .ok o2) :
    distL1 o2 y_test ≤ distL1 o1 y_test := by
  unfold wassersteinTransformIntended at h1 h2
  rw [if_neg (by push_neg; exact ⟨h01, le_trans h12 h21⟩)] at h1
  rw [if_neg (by push_neg; exact ⟨le_trans h01 h12, h21⟩)] at h2
  by_cases hsh : y_test.length ≠ x_ssa_test.length
  · rw [if_pos hsh] at h1
    exact absurd h1 (by simp)
  · rw [if_neg hsh] at h1 h2
    by_cases hm : ∀ mod ∈ getMod x_ssa_test, mod ∈ st.sens_val_calib
    · rw [if_pos hm] at h1 h2
      injection h1 with h1
      injection h2 with h2
      rw [← h1, ← h2, distL1_interp e1 (le_trans h12 h21),
        distL1_interp e2 h21]
      exact mul_le_mul_of_nonneg_right (by linarith) (distL1_nonneg _ _)
    · rw [if_neg hm] at h1
      exact absurd h1 (by simp)

/-- The calibration state the intended fit produces on `y_calib = [0, 1]`,
`x_ssa_calib = [7, 7]` with a zero noise draw (the real fit raises
`TypeError` there instead of producing any state). -/
def c2Calib : CalibState ℕ :=
  (wassersteinFitIntended [0, 1] [7, 7] [0, 0]).toOption.getD
    (CalibState.mk [] (fun _ => 0) (fun _ _ => 0) (fun _ _ => 0))

/-- Evaluation helper: on the state `c2Calib`, the intended transform of the
test point `y = [0]`, `x = [7]` with zero jitter returns `[(1-e)/2]`. -/
theorem c2_transform_eval (e : ℚ) (h0 : 0 ≤ e) (h1 : e ≤ 1) :
    wassersteinTransformIntended c2Calib [0] [7] [0] e =
      .ok [(1 - e) * (1 / 2)] := by
  have hw : c2Calib.weights 7 = 1 := by
    show getWeights [7, 7] 7 = 1
    norm_num [getWeights, show locOf ([7, 7] : List ℕ) 7 = [0, 1] from by decide]
  have hecdf : c2Calib.ecdf 7 0 = 1 / 2 := by
    show ecdfOf (noisedVals [0, 1] [0, 0] (locOf [7, 7] 7)) 0 = 1 / 2
    rw [show locOf ([7, 7] : List ℕ) 7 = [0, 1] from by decide]
    norm_num [noisedVals, ecdfOf]
  have heqf : c2Calib.eqf 7 (1 / 2) = 1 / 2 := by
    show eqfOf (noisedVals [0, 1] [0, 0] (locOf [7, 7] 7)) (1 / 2) = 1 / 2
    rw [show locOf ([7, 7] : List ℕ) 7 = [0, 1] from by decide]
    norm_num [noisedVals, eqfOf, eqfKnots, sortedOf, List.mergeSort, interpPts,
      List.range_succ]
  have hraw : rawFairAt c2Calib [0] [7] [0] 0 = 1 / 2 := by
    unfold rawFairAt
    rw [show getMod ([7] : List ℕ) = [7] from by decide]
    simp only [List.foldl_cons, List.foldl_nil]
    rw [if_pos (show (0 : ℕ) ∈ locOf ([7] : List ℕ) 7 from by decide)]
    simp only [List.getD_cons_zero]
    rw [show (0 : ℚ) + 0 = 0 from by norm_num, hecdf, heqf, hw]
    norm_num
  unfold wassersteinTransformIntended
  rw [if_neg (by push_neg; exact ⟨h0, h1⟩), if_neg (by norm_num),
    if_pos (by decide)]
  rw [show List.range ([(0 : ℚ)].length) = [0] from by decide]
  simp only [List.map_cons, List.map_nil, List.zipWith_cons_cons,
    List.zipWith_nil_right]
  rw [hraw]
  norm_num

/-- Counterexample to C2 as stated.  The real fit cannot even produce the
claim's "fitted adjuster" (it raises `TypeError` at line 73 on this input);
and in the intended semantics — the only one in which the claimed distances
exist, and the one the docstrings document — fitting on `[0, 1]` / `[7, 7]`
and transforming `y = [0]` with fixed (zero) jitter gives distance `1/2` at
epsilon 0 and `0` at epsilon 1: the distance strictly DECREASES as epsilon
grows, so it is not non-decreasing. -/
theorem claim2_counterexample :
    wassersteinFit (α := ℕ) [0, 1] [7, 7] [0, 0] = .error .typeError ∧
      wassersteinFitIntended (α := ℕ) [0, 1] [7, 7] [0, 0] = .ok c2Calib ∧
      wassersteinTransformIntended c2Calib [0] [7] [0] 0 = .ok [1 / 2] ∧
      wassersteinTransformIntended c2Calib [0] [7] [0] 1 = .ok [0] ∧
      ¬ distL1 [1 / 2] [0] ≤ distL1 [0] [0] := by
  refine ⟨rfl, rfl, ?_, ?_, ?_⟩
  · have h := c2_transform_eval 0 le_rfl (by norm_num)
    norm_num at h
    exact h
  · have h := c2_transform_eval 1 (by norm_num) le_rfl
    norm_num at h
    exact h
  · norm_num [distL1]

/-- Witness for the amended C2 at concrete epsilons `1/4 ≤ 3/4` on the state
`c2Calib`. -/
theorem claim2_epsilon_tradeoff_witness :
    (0 : ℚ) ≤ 1 / 4 ∧ (1 : ℚ) / 4 ≤ 3 / 4 ∧ (3 : ℚ) / 4 ≤ 1 ∧
      wassersteinTransformIntended c2Calib [0] [7] [0] (1 / 4) =
        .ok [(1 - 1 / 4) * (1 / 2)] ∧
      wassersteinTransformIntended c2Calib [0] [7] [0] (3 / 4) =
        .ok [(1 - 3 / 4) * (1 / 2)] ∧
      distL1 [(1 - 3 / 4) * (1 / 2)] [0] ≤ distL1 [(1 - 1 / 4) * (1 / 2)] [0] :=
  ⟨by norm_num, by norm_num, by norm_num,
    c2_transform_eval (1 / 4) (by norm_num) (by norm_num),
    c2_transform_eval (3 / 4) (by norm_num) (by norm_num),
    claim2_epsilon_tradeoff c2Calib [0] [7] [0] (1 / 4) (3 / 4) (by norm_num)
      (by norm_num) (by norm_num) _ _
      (c2_transform_eval (1 / 4) (by norm_num) (by norm_num))
      (c2_transform_eval (3 / 4) (by norm_num) (by norm_num))⟩

/-! ### Unseen-modality rejection -/

/-- C3, settled as a code bug.  The code as written: with a valid epsilon
and matching shapes, every `Wasserstein.transform` call — unseen modalities
or not — raises `TypeError` at line 122, before `_check_mod` at line 123, so
the unseen-modality error is never raised and no input runs clean.  The
intent this defeats (the `_check_mod` check the source contains, the spec's
§8 unseen-modality test): the unseen-modality error fires if and only if
some modality present in the test attribute vector was not among the
calibration modalities — in particular calibration modalities absent from
the test set never raise. -/
theorem claim3_unseen_modality_code_vs_intent {α : Type} [DecidableEq α]
    (st : CalibState α) (y_test : List ℚ) (x_ssa_test : List α)
    (jitter : List ℚ) (epsilon : ℚ) (heps0 : 0 ≤ epsilon) (heps1 : epsilon ≤ 1)
    (hlen : y_test.length = x_ssa_test.length) :
    wassersteinTransform st y_test x_ssa_test jitter epsilon =
      .error .typeError ∧
    (wassersteinTransformIntended st y_test x_ssa_test jitter epsilon =
        .error .unseenModality ↔
      ∃ mod ∈ getMod x_ssa_test, mod ∉ st.sens_val_calib) := by
  constructor
  · unfold wassersteinTransform
    rw [if_neg (by push_neg; exact ⟨heps0, heps1⟩), if_neg (by simp [hlen])]
  · unfold wassersteinTransformIntended
    rw [if_neg (by push_neg; exact ⟨heps0, heps1⟩), if_neg (by simp [hlen])]
    by_cases hm : ∀ mod ∈ getMod x_ssa_test, mod ∈ st.sens_val_calib
    · rw [if_pos hm]
      constructor
      · intro h
        exact absurd h (by simp)
      · rintro ⟨m, hm1, hm2⟩
        exact absurd (hm m hm1) hm2
    · rw [if_neg hm]
      push_neg at hm
      exact ⟨fun _ => hm, fun _ => rfl⟩

/-- Witness for C3: calibration modalities `{1, 2}`, a test set containing
the unseen modality `3`; the code path raises the type error while the
intended check returns exactly the unseen-modality error. -/
theorem claim3_unseen_modality_code_vs_intent_witness :
    (0 : ℚ) ≤ 0 ∧ (0 : ℚ) ≤ 1 ∧
      ([5, 6] : List ℚ).length = ([1, 3] : List ℕ).length ∧
      wassersteinTransform
          (CalibState.mk [1, 2] (fun _ => 1) (fun _ t => t) (fun _ q => q))
          [5, 6] [1, 3] [0, 0] 0 = .error .typeError ∧
      ((wassersteinTransformIntended
          (CalibState.mk [1, 2] (fun _ => 1) (fun _ t => t) (fun _ q => q))
          [5, 6] [1, 3] [0, 0] 0 = .error .unseenModality) ↔
        ∃ mod ∈ getMod ([1, 3] : List ℕ), mod ∉ [1, 2]) ∧
      wassersteinTransformIntended
          (CalibState.mk [1, 2] (fun _ => 1) (fun _ t => t) (fun _ q => q))
          [5, 6] [1, 3] [0, 0] 0 = .error .unseenModality :=
  ⟨le_rfl, by norm_num, by decide,
    (claim3_unseen_modality_code_vs_intent _ [5, 6] [1, 3] [0, 0] 0 le_rfl
      (by norm_num) (by decide)).1,
    (claim3_unseen_modality_code_vs_intent _ [5, 6] [1, 3] [0, 0] 0 le_rfl
      (by norm_num) (by decide)).2,
    rfl⟩

/-! ### The sequential multi-attribute adjuster -/

/-- The stage key `f-string` `sens_var_{n}` used by `MultiWasserStein` and the
metrics layer. -/
def sensVarKey (n : ℕ) : String :=
  "sens_var_" ++ toString n

/-- Python `dict` update `d[k] = v` on an insertion-ordered association list:
replace the value if the key exists, otherwise append the new entry. -/
def dictUpd {β : Type} (d : List (String × β)) (k : String) (v : β) :
    List (String × β) :=
  if d.any (fun p => p.1 = k) then
    d.map (fun p => if p.1 = k then (k, v) else p)
  else d ++ [(k, v)]

/-- Python `dict` lookup `d[k]`, `none` when the key is missing. -/
def dictGet? {β : Type} (d : List (String × β)) (k : String) : Option β :=
  (d.find? (fun p => p.1 = k)).map (fun p => p.2)

/-- Models numpy `.T` on a row-major matrix: the list of columns.  The number of
columns is read off the first row (`np.shape(x)[1]`); `default` is only
reached on ragged input, which numpy would reject earlier. -/
def transposeOf {α : Type} [Inhabited α] (x : List (List α)) : List (List α) :=
  (List.range (x.headD []).length).map
    (fun j => x.map (fun row => row.getD j default))

/-- The instance state of a `MultiWasserStein` object (`_wasserstein.py`).
`sigma` is an `Option` because the attribute is only present if some code path
assigned it: `__init__` never does, so a fresh instance carries `none` and any
read of `self.sigma` on it is a Python `AttributeError`.  The four parallel
dicts `sens_val_calib_all` / `weights_all` / `ecdf_all` / `eqf_all` (all keyed
by the same `sens_var_{i+1}` strings) are modelled as one dict of
`CalibState` records. -/
structure MultiState (α : Type) where
  sigma : Option ℚ
  y_fair_test : List (String × List ℚ)
  calib_all : List (String × CalibState α)

/-- Embeds `MultiWasserStein.__init__` (`_wasserstein.py`): the constructor
declares a `sigma` parameter (default `0.0001` in the source) but its body
only initialises the dicts and never assigns `self.sigma`, so the argument is
discarded. -/
def multiInit {α : Type} (_sigma : ℚ) : MultiState α :=
  { sigma := none, y_fair_test := [], calib_all := [] }

/-- Modelled from the spec: `_check_nb_observations` is imported by
`_wasserstein.py` from `utils.checkers` but its definition is absent from the
source tree; per spec §4.4, `MultiWasserStein.fit` "requires at least 2
observations total (fails with `InsufficientDataError` otherwise)". -/
def checkNbObservations {α : Type} (x_sa : List (List α)) :
    Except FairnessError Unit :=
  if x_sa.length < 2 then .error .insufficientData else .ok ()

/-- The per-column loop of `MultiWasserStein.fit`: for column `i`, read
`self.sigma` (an `AttributeError` on a fresh instance), fit a fresh
single-attribute adjuster on the current working labels, store its calibration
state under `sens_var_{i+1}`, and advance the working labels by transforming
them with `epsilon = 0`.  `fitNoises` / `transformJitters` are the per-column
random draws. -/
def multiFitLoop {α : Type} [DecidableEq α] (st : MultiState α)
    (y_inter : List ℚ) (cols : List (List α)) (i : ℕ)
    (fitNoises transformJitters : List (List ℚ)) :
    Except FairnessError (MultiState α) :=
  match cols with
  | [] => .ok st
  | c :: rest =>
    match st.sigma with
    | none => .error .attributeError
    | some _ =>
      match wassersteinFit y_inter c (fitNoises.getD i []) with
      | .error e => .error e
      | .ok calib =>
        match wassersteinTransform calib y_inter c
            (transformJitters.getD i []) 0 with
        | .error e => .error e
        | .ok y_next =>
          multiFitLoop
            { st with calib_all := dictUpd st.calib_all (sensVarKey (i + 1)) calib }
            y_next rest (i + 1) fitNoises transformJitters

/-- Embeds `MultiWasserStein.fit` (`_wasserstein.py`): check the observation
count, then run the per-column fitting loop over the transposed attribute
matrix. -/
def multiFit {α : Type} [DecidableEq α] [Inhabited α] (st : MultiState α)
    (y_calib : List ℚ) (x_sa_calib : List (List α))
    (fitNoises transformJitters : List (List ℚ)) :
    Except FairnessError (MultiState α) :=
  match checkNbObservations x_sa_calib with
  | .error e => .error e
  | .ok _ => multiFitLoop st y_calib (transposeOf x_sa_calib) 0
      fitNoises transformJitters

/-- The per-column loop of `MultiWasserStein.transform` (lines 286-297),
part of the intended model `multiTransformIntended`: for column `i`, read
`self.sigma`, restore the column's cached calibration state
(`self.*_all[f'sens_var_{i+1}']`, a `KeyError` if absent), transform the
current working labels with that column's epsilon (the intended
single-attribute transform), and record the result in
`self.y_fair_test[f'sens_var_{i+1}']`. -/
def multiTransformLoop {α : Type} [DecidableEq α] (st : MultiState α)
    (y_inter : List ℚ) (cols : List (List α)) (i : ℕ)
    (jitters : List (List ℚ)) (epsilon : List ℚ) :
    Except FairnessError (MultiState α × List ℚ) :=
  match cols with
  | [] => .ok (st, y_inter)
  | c :: rest =>
    match st.sigma with
    | none => .error .attributeError
    | some _ =>
      match dictGet? st.calib_all (sensVarKey (i + 1)) with
      | none => .error .keyError
      | some calib =>
        match wassersteinTransformIntended calib y_inter c (jitters.getD i [])
            (epsilon.getD i 0) with
        | .error e => .error e
        | .ok y_next =>
          multiTransformLoop
            { st with
              y_fair_test := dictUpd st.y_fair_test (sensVarKey (i + 1)) y_next }
            y_next rest (i + 1) jitters epsilon

/-- The body of `_check_epsilon_size` (`checkers.py:74-99`), matrix case:
error when the epsilon vector's length differs from the number of sensitive
columns.  The `def` carries a vestigial first parameter named `self` that
the body never uses, and the 1-D `ndim == 1` branch has no counterpart in
the matrix model.  In the source this body is unreachable: the only call
site (`_wasserstein.py:282`) passes two arguments to the
three-required-parameter function. -/
def checkEpsilonSize {α : Type} [Inhabited α] (epsilon : List ℚ)
    (x_sa_test : List (List α)) : Except FairnessError Unit :=
  if epsilon.length ≠ (x_sa_test.headD []).length then .error .sizeMismatch
  else .ok ()

/-- Embeds `MultiWasserStein.transform` (`_wasserstein.py`) as written: after
the `epsilon == None` defaulting (lines 277-281), line 282 calls
`_check_epsilon_size(epsilon, x_sa_test)` — two arguments for a function
whose three parameters (`self, epsilon, x_sa_test`) are all required
(`checkers.py:74`) — an unconditional Python `TypeError`, before
`"Base model"` is recorded, before any column is adjusted, and before
`self.sigma` is read.  Every call fails identically, whatever the epsilon. -/
def multiTransform {α : Type} [DecidableEq α] [Inhabited α] (_st : MultiState α)
    (_y_test : List ℚ) (_x_sa_test : List (List α)) (_jitters : List (List ℚ))
    (_epsilonOpt : Option (List ℚ)) :
    Except FairnessError (MultiState α × List ℚ) :=
  .error .typeError

/-- The body of `MultiWasserStein.transform` under the intended bindings (the
checker applied to `(epsilon, x_sa_test)` as its docstring documents, and the
intended single-attribute transform in the loop): default a missing epsilon
to the all-zero vector of length `np.shape(x)[1]`, check its length, record
the test labels under `"Base model"`, then run the per-column loop and
return the vector recorded under the final stage.  The source's final
`return self.y_fair_test[f'sens_var_{i+1}']` references the loop variable, a
Python `NameError` when there are no columns. -/
def multiTransformIntended {α : Type} [DecidableEq α] [Inhabited α]
    (st : MultiState α) (y_test : List ℚ) (x_sa_test : List (List α))
    (jitters : List (List ℚ)) (epsilonOpt : Option (List ℚ)) :
    Except FairnessError (MultiState α × List ℚ) :=
  let ncols := (x_sa_test.headD []).length
  let epsilon := epsilonOpt.getD (List.replicate ncols 0)
  if epsilon.length ≠ ncols then .error .sizeMismatch
  else
    let st1 := { st with y_fair_test := dictUpd st.y_fair_test "Base model" y_test }
    if ncols = 0 then .error .nameError
    else multiTransformLoop st1 y_test (transposeOf x_sa_test) 0 jitters epsilon

/-- Embeds `MultiWasserStein.get_sequential_fairness`: returns the stage
trace `self.y_fair_test`. -/
def getSequentialFairness {α : Type} (st : MultiState α) :
    List (String × List ℚ) :=
  st.y_fair_test

/-! ### Epsilon defaulting and size checking (C4) -/

/-- C4, settled as a code bug.  The code as written: every
`MultiWasserStein.transform` call raises `TypeError` at the under-applied
`_check_epsilon_size` call (line 282), whatever the epsilon — no
length-conditional size-mismatch error is reachable.  The intent this
defeats: the checker's body errors exactly when the epsilon length differs
from the column count, and under the intended bindings an omitted epsilon
behaves as the all-zero vector of length `n` while a wrong-length epsilon is
rejected with the size-mismatch error before any adjustment. -/
theorem claim4_epsilon_size_code_vs_intent {α : Type} [DecidableEq α]
    [Inhabited α] (st : MultiState α) (y_test : List ℚ)
    (x_sa_test : List (List α)) (jitters : List (List ℚ)) :
    (∀ epsilonOpt : Option (List ℚ),
      multiTransform st y_test x_sa_test jitters epsilonOpt =
        .error .typeError) ∧
    (∀ eps : List ℚ,
      checkEpsilonSize eps x_sa_test = .error .sizeMismatch ↔
        eps.length ≠ (x_sa_test.headD []).length) ∧
    (multiTransformIntended st y_test x_sa_test jitters none =
      multiTransformIntended st y_test x_sa_test jitters
        (some (List.replicate (x_sa_test.headD []).length 0))) ∧
    (∀ eps : List ℚ, eps.length ≠ (x_sa_test.headD []).length →
      multiTransformIntended st y_test x_sa_test jitters (some eps) =
        .error .sizeMismatch) := by
  refine ⟨fun _ => rfl, ?_, rfl, ?_⟩
  · intro eps
    unfold checkEpsilonSize
    by_cases h : eps.length ≠ (x_sa_test.headD []).length
    · rw [if_pos h]
      exact ⟨fun _ => h, fun _ => rfl⟩
    · rw [if_neg h]
      exact ⟨fun hc => absurd hc (by simp), fun hc => absurd hc h⟩
  · intro eps hne
    simp only [multiTransformIntended, Option.getD_some]
    rw [if_pos hne]

/-- Witness for C4 on a fresh two-column instance: the correct-length epsilon
`[0, 0]` still hits the type error in the code as written, while under the
intended bindings omission equals `[0, 0]` and the length-3 epsilon
`[0, 0, 0]` is rejected with the size-mismatch error. -/
theorem claim4_epsilon_size_code_vs_intent_witness :
    multiTransform (multiInit 0) [1] ([[1, 2]] : List (List ℕ)) []
        (some [0, 0]) = .error .typeError ∧
      (checkEpsilonSize [0, 0] ([[1, 2]] : List (List ℕ)) =
          .error .sizeMismatch ↔
        ([0, 0] : List ℚ).length ≠ (([[1, 2]] : List (List ℕ)).headD []).length) ∧
      (multiTransformIntended (multiInit 0) [1] ([[1, 2]] : List (List ℕ)) []
          none =
        multiTransformIntended (multiInit 0) [1] ([[1, 2]] : List (List ℕ)) []
          (some (List.replicate (([[1, 2]] : List (List ℕ)).headD []).length 0))) ∧
      ([0, 0, 0] : List ℚ).length ≠ (([[1, 2]] : List (List ℕ)).headD []).length ∧
      multiTransformIntended (multiInit 0) [1] ([[1, 2]] : List (List ℕ)) []
          (some [0, 0, 0]) = .error .sizeMismatch :=
  ⟨(claim4_epsilon_size_code_vs_intent (multiInit 0) [1] [[1, 2]] []).1
      (some [0, 0]),
    (claim4_epsilon_size_code_vs_intent (multiInit 0) [1] [[1, 2]] []).2.1
      [0, 0],
    (claim4_epsilon_size_code_vs_intent (multiInit 0) [1] [[1, 2]] []).2.2.1,
    by decide,
    (claim4_epsilon_size_code_vs_intent (multiInit 0) [1] [[1, 2]] []).2.2.2
      [0, 0, 0] (by decide)⟩

/-! ### The observation-count check (C9) -/

/-- Fitting `Wasserstein.fit` can only fail with the shape error. -/
theorem wassersteinFit_ne_insufficient {α : Type} [DecidableEq α]
    (y_calib : List ℚ) (x_ssa_calib : List α) (noise : List ℚ) :
    wassersteinFit y_calib x_ssa_calib noise ≠ .error .insufficientData := by
  unfold wassersteinFit
  split_ifs <;> simp

/-- Transforming via `Wasserstein.transform` never raises the insufficient-data error. -/
theorem wassersteinTransform_ne_insufficient {α : Type} [DecidableEq α]
    (st : CalibState α) (y_test : List ℚ) (x_ssa_test : List α)
    (jitter : List ℚ) (epsilon : ℚ) :
    wassersteinTransform st y_test x_ssa_test jitter epsilon ≠
      .error .insufficientData := by
  unfold wassersteinTransform
  split_ifs <;> simp

/-- The per-column fitting loop never raises the insufficient-data error. -/
theorem multiFitLoop_ne_insufficient {α : Type} [DecidableEq α] :
    ∀ (cols : List (List α)) (st : MultiState α) (y_inter : List ℚ) (i : ℕ)
      (fitNoises transformJitters : List (List ℚ)),
      multiFitLoop st y_inter cols i fitNoises transformJitters ≠
        .error .insufficientData := by
  intro cols
  induction cols with
  | nil =>
    intro st y i fn tj
    simp [multiFitLoop]
  | cons c rest ih =>
    intro st y i fn tj
    unfold multiFitLoop
    cases hs : st.sigma with
    | none => simp
    | some s =>
      cases hf : wassersteinFit y c (fn.getD i []) with
      | error e =>
        dsimp only
        intro h
        injection h with h
        exact wassersteinFit_ne_insufficient y c (fn.getD i []) (h ▸ hf)
      | ok calib =>
        dsimp only
        cases ht : wassersteinTransform calib y c (tj.getD i []) 0 with
        | error e =>
          intro h
          injection h with h
          exact wassersteinTransform_ne_insufficient calib y c (tj.getD i []) 0
            (h ▸ ht)
        | ok y_next => exact ih _ _ _ _ _

/-- C9. `MultiWasserStein.fit` raises the insufficient-data error exactly on
calibration sets of fewer than 2 observations; with 2 or more, the check
passes and control proceeds into the per-column fitting loop. -/
theorem claim9_min_observations {α : Type} [DecidableEq α] [Inhabited α]
    (st : MultiState α) (y_calib : List ℚ) (x_sa_calib : List (List α))
    (fitNoises transformJitters : List (List ℚ)) :
    (x_sa_calib.length < 2 →
      multiFit st y_calib x_sa_calib fitNoises transformJitters =
        .error .insufficientData) ∧
    (2 ≤ x_sa_calib.length →
      multiFit st y_calib x_sa_calib fitNoises transformJitters ≠
        .error .insufficientData ∧
      multiFit st y_calib x_sa_calib fitNoises transformJitters =
        multiFitLoop st y_calib (transposeOf x_sa_calib) 0 fitNoises
          transformJitters) := by
  constructor
  · intro h
    simp [multiFit, checkNbObservations, if_pos h]
  · intro h
    have hnot : ¬ x_sa_calib.length < 2 := not_lt.mpr h
    have heq : multiFit st y_calib x_sa_calib fitNoises transformJitters =
        multiFitLoop st y_calib (transposeOf x_sa_calib) 0 fitNoises
          transformJitters := by
      unfold multiFit checkNbObservations
      rw [if_neg hnot]
    rw [heq]
    exact ⟨multiFitLoop_ne_insufficient _ _ _ _ _ _, rfl⟩

/-- Witness for C9: one observation is rejected, two observations pass the
check (on a fresh instance the loop then stops on the uninitialised
`sigma`, which is not the insufficient-data error). -/
theorem claim9_min_observations_witness :
    ([[1]] : List (List ℕ)).length < 2 ∧
      multiFit (multiInit 0) [5] ([[1]] : List (List ℕ)) [] [] =
        .error .insufficientData ∧
      2 ≤ ([[1], [2]] : List (List ℕ)).length ∧
      multiFit (multiInit 0) [5, 6] ([[1], [2]] : List (List ℕ)) [] [] ≠
        .error .insufficientData :=
  ⟨by decide,
    (claim9_min_observations (multiInit 0) [5] [[1]] [] []).1 (by decide),
    by decide,
    ((claim9_min_observations (multiInit 0) [5, 6] [[1], [2]] [] []).2
      (by decide)).1⟩

/-! ### The never-assigned `sigma` attribute (C10) -/

/-- C10, amended.  `MultiWasserStein.__init__` accepts a `sigma` parameter
(default `0.0001` in its signature at line 174) but never assigns
`self.sigma`; `fit` reads `self.sigma` to construct each per-column
`Wasserstein` instance (line 223), so on a freshly constructed instance
every `fit` call that reaches the per-column adjuster construction (at
least 2 observations and at least one column) fails with the
uninitialised-attribute error.  `transform`, contrary to the claim, never
reaches the per-column construction and never reads `self.sigma`: every
call fails beforehand with the `TypeError` of the under-applied
`_check_epsilon_size` call (line 282); `claim10_counterexample` exhibits
this at a concrete input. -/
theorem claim10_sigma_uninitialized {α : Type} [DecidableEq α] [Inhabited α]
    (sigma : ℚ) (y : List ℚ) (x : List (List α))
    (fitNoises transformJitters jitters : List (List ℚ)) :
    (multiInit (α := α) sigma).sigma = none ∧
    (2 ≤ x.length → 1 ≤ (x.headD []).length →
      multiFit (multiInit sigma) y x fitNoises transformJitters =
        .error .attributeError) ∧
    (∀ epsilonOpt : Option (List ℚ),
      multiTransform (multiInit (α := α) sigma) y x jitters epsilonOpt =
        .error .typeError) := by
  have htlen : ∀ (z : List (List α)),
      (transposeOf z).length = (z.headD []).length := by
    intro z
    simp [transposeOf]
  refine ⟨rfl, ?_, fun _ => rfl⟩
  intro h2 hc
  have heq : multiFit (multiInit (α := α) sigma) y x fitNoises
      transformJitters =
      multiFitLoop (multiInit sigma) y (transposeOf x) 0 fitNoises
        transformJitters := by
    unfold multiFit checkNbObservations
    rw [if_neg (not_lt.mpr h2)]
  rw [heq]
  cases hx : transposeOf x with
  | nil =>
    have := htlen x
    rw [hx, List.length_nil] at this
    omega
  | cons c rest => rfl

/-- Counterexample to C10 as stated: on a fresh instance, a transform call
with a length-matching epsilon — which per the claim would reach the
per-column adjuster construction and fail by dereferencing the
never-assigned `self.sigma` — in fact fails earlier, with the `TypeError`
of the under-applied `_check_epsilon_size` call, a different error raised
before `self.sigma` is ever read.  (The claim's premise that `__init__`
accepts no sigma parameter also contradicts the source signature
`def __init__(self, sigma=0.0001)` at line 174, which this embedding's
`multiInit` mirrors by accepting and discarding the argument.) -/
theorem claim10_counterexample :
    multiTransform (multiInit (α := ℕ) (1 / 10000)) [1, 2]
        ([[1], [1]] : List (List ℕ)) [] (some [0]) = .error .typeError ∧
      FairnessError.typeError ≠ FairnessError.attributeError :=
  ⟨rfl, by decide⟩

/-- Witness for the amended C10 on a concrete fresh instance with two
observations of a single attribute column. -/
theorem claim10_sigma_uninitialized_witness :
    (multiInit (α := ℕ) (1 / 1000)).sigma = none ∧
      2 ≤ ([[1], [2]] : List (List ℕ)).length ∧
      1 ≤ (([[1], [2]] : List (List ℕ)).headD []).length ∧
      multiFit (multiInit (1 / 1000)) [5, 6] ([[1], [2]] : List (List ℕ)) [] [] =
        .error .attributeError ∧
      multiTransform (multiInit (1 / 1000)) [5, 6] ([[1], [2]] : List (List ℕ))
          [] none = .error .typeError :=
  ⟨(claim10_sigma_uninitialized (1 / 1000) [5, 6] [[1], [2]] [] [] []).1,
    by decide, by decide,
    (claim10_sigma_uninitialized (1 / 1000) [5, 6] [[1], [2]] [] [] []).2.1
      (by decide) (by decide),
    (claim10_sigma_uninitialized (1 / 1000) [5, 6] [[1], [2]] [] [] []).2.2
      none⟩

/-! ### Enumerating attribute-column orderings (C8) -/

/-- Embeds `permutations_cols` (`_more_wasserstein.py`): stack an index row on
top of the attribute matrix, take every permutation of the column index range
(`itertools.permutations(range(n))`, `n = len(x_sa[0])`), and for each
permutation emit the permuted header row as the key and the permuted data rows
as the value.  The enumeration order of `List.permutations` differs from
`itertools`' lexicographic order; no claim depends on the order. -/
def permutationsCols {α : Type} [Inhabited α] (x_sa : List (List α)) :
    List (List ℕ × List (List α)) :=
  (List.range (x_sa.headD []).length).permutations.map
    (fun perm =>
      (perm.map (fun j => (List.range (x_sa.headD []).length).getD j 0),
       x_sa.map (fun row => perm.map (fun j => row.getD j default))))

/-- A permutation of `range n` maps back to itself through the header row. -/
theorem perm_header_id (n : ℕ) :
    ∀ perm ∈ (List.range n).permutations,
      perm.map (fun j => (List.range n).getD j 0) = perm := by
  intro perm hp
  have hperm : perm.Perm (List.range n) := List.mem_permutations.mp hp
  have hid : ∀ j ∈ perm, (List.range n).getD j 0 = j := by
    intro j hj
    have hj' : j < n := List.mem_range.mp (hperm.subset hj)
    simp [List.getD_eq_getElem?_getD, List.getElem?_range hj']
  rw [List.map_congr_left hid]
  exact List.map_id' perm

/-- C8. For an attribute matrix with `k` columns, `permutations_cols` yields
exactly `k!` orderings with pairwise distinct keys; every key is a permutation
of `range k` and its value is the attribute matrix with columns permuted
accordingly. -/
theorem claim8_permutations_cols {α : Type} [Inhabited α]
    (x_sa : List (List α)) :
    (permutationsCols x_sa).length = ((x_sa.headD []).length).factorial ∧
    ((permutationsCols x_sa).map Prod.fst).Nodup ∧
    ∀ p ∈ permutationsCols x_sa,
      p.1.Perm (List.range (x_sa.headD []).length) ∧
      p.2 = x_sa.map (fun row => p.1.map (fun j => row.getD j default)) := by
  have hkeys : (permutationsCols x_sa).map Prod.fst =
      (List.range (x_sa.headD []).length).permutations := by
    unfold permutationsCols
    rw [List.map_map]
    calc (List.range (x_sa.headD []).length).permutations.map
          (fun perm => perm.map
            (fun j => (List.range (x_sa.headD []).length).getD j 0)) =
        (List.range (x_sa.headD []).length).permutations.map id :=
          List.map_congr_left (perm_header_id (x_sa.headD []).length)
      _ = (List.range (x_sa.headD []).length).permutations := List.map_id _
  refine ⟨?_, ?_, ?_⟩
  · unfold permutationsCols
    rw [List.length_map, List.length_permutations, List.length_range]
  · rw [hkeys]
    exact List.nodup_permutations _ (List.nodup_range _)
  · intro p hp
    obtain ⟨perm, hpmem, rfl⟩ := List.mem_map.mp hp
    have hfst := perm_header_id (x_sa.headD []).length perm hpmem
    constructor
    · rw [hfst]
      exact List.mem_permutations.mp hpmem
    · rw [hfst]

/-- Witness for C8: the 2-column matrix `[[10, 20], [30, 40]]`, whose identity
ordering appears among the two enumerated orderings. -/
theorem claim8_permutations_cols_witness :
    (permutationsCols ([[10, 20], [30, 40]] : List (List ℕ))).length =
        Nat.factorial 2 ∧
      (([0, 1], [[10, 20], [30, 40]]) :
          List ℕ × List (List ℕ)) ∈
        permutationsCols ([[10, 20], [30, 40]] : List (List ℕ)) ∧
      ([0, 1] : List ℕ).Perm (List.range 2) ∧
      ([[10, 20], [30, 40]] : List (List ℕ)) =
        ([[10, 20], [30, 40]] : List (List ℕ)).map
          (fun row => ([0, 1] : List ℕ).map (fun j => row.getD j default)) :=
  ⟨(claim8_permutations_cols [[10, 20], [30, 40]]).1, by decide,
    ((claim8_permutations_cols [[10, 20], [30, 40]]).2.2
      ([0, 1], [[10, 20], [30, 40]]) (by decide)).1,
    ((claim8_permutations_cols [[10, 20], [30, 40]]).2.2
      ([0, 1], [[10, 20], [30, 40]]) (by decide)).2⟩

/-! ### Injectivity of the decimal stage labels -/

/-- Core recursion `Nat.toDigitsCore` threads its accumulator on the right of the digits it
produces. -/
theorem toDigitsCore_append10 : ∀ (fuel n : ℕ) (ds : List Char), n < fuel →
    Nat.toDigitsCore 10 fuel n ds = Nat.toDigitsCore 10 fuel n [] ++ ds := by
  intro fuel
  induction fuel with
  | zero =>
    intro n ds h
    exact absurd h (Nat.not_lt_zero n)
  | succ f ih =>
    intro n ds h
    by_cases h10 : n / 10 = 0
    · simp only [Nat.toDigitsCore, if_pos h10]
      simp
    · simp only [Nat.toDigitsCore, if_neg h10]
      have hlt : n / 10 < n := Nat.div_lt_self (Nat.pos_of_ne_zero
        (fun h0 => h10 (by simp [h0]))) (by norm_num)
      have hf : n / 10 < f := lt_of_lt_of_le hlt (Nat.lt_succ_iff.mp h)
      rw [ih (n / 10) ((n % 10).digitChar :: ds) hf,
        ih (n / 10) [(n % 10).digitChar] hf, List.append_assoc]
      simp

/-- The fuel argument of `Nat.toDigitsCore` is irrelevant once it exceeds the
number being rendered. -/
theorem toDigitsCore_fuel10 : ∀ (n fuel fuel' : ℕ), n < fuel → n < fuel' →
    Nat.toDigitsCore 10 fuel n [] = Nat.toDigitsCore 10 fuel' n [] := by
  intro n
  induction n using Nat.strong_induction_on with
  | _ n ih =>
    intro fuel fuel' hf hf'
    cases fuel with
    | zero => exact absurd hf (Nat.not_lt_zero n)
    | succ f =>
      cases fuel' with
      | zero => exact absurd hf' (Nat.not_lt_zero n)
      | succ f' =>
        by_cases h10 : n / 10 = 0
        · simp only [Nat.toDigitsCore, if_pos h10]
        · simp only [Nat.toDigitsCore, if_neg h10]
          have hlt : n / 10 < n := Nat.div_lt_self (Nat.pos_of_ne_zero
            (fun h0 => h10 (by simp [h0]))) (by norm_num)
          have hfn : n / 10 < f := lt_of_lt_of_le hlt (Nat.lt_succ_iff.mp hf)
          have hfn' : n / 10 < f' := lt_of_lt_of_le hlt (Nat.lt_succ_iff.mp hf')
          rw [toDigitsCore_append10 f (n / 10) _ hfn,
            toDigitsCore_append10 f' (n / 10) _ hfn',
            ih (n / 10) hlt f f' hfn hfn']

/-- The decimal digit list of `n` (the `Nat.toDigits 10` rendering). -/
def decDigits (n : ℕ) : List Char :=
  Nat.toDigitsCore 10 (n + 1) n []

/-- Small numbers render as a single digit character. -/
theorem decDigits_small {n : ℕ} (h : n < 10) : decDigits n = [n.digitChar] := by
  unfold decDigits
  simp only [Nat.toDigitsCore, if_pos (Nat.div_eq_of_lt h)]
  rw [Nat.mod_eq_of_lt h]

/-- Large numbers render as the rendering of `n / 10` followed by the final
digit. -/
theorem decDigits_step {n : ℕ} (h : 10 ≤ n) :
    decDigits n = decDigits (n / 10) ++ [(n % 10).digitChar] := by
  unfold decDigits
  have h10 : n / 10 ≠ 0 := by
    have := Nat.div_le_div_right (c := 10) h
    simp at this
    omega
  simp only [Nat.toDigitsCore, if_neg h10]
  have hlt : n / 10 < n := Nat.div_lt_self (by omega) (by norm_num)
  rw [toDigitsCore_append10 n (n / 10) _ (by omega)]
  congr 1
  exact toDigitsCore_fuel10 (n / 10) n (n / 10 + 1) (by omega) (by omega)

/-- Decimal digit characters identify digits uniquely. -/
theorem digitChar_inj_lt10 : ∀ a, a < 10 → ∀ b, b < 10 →
    Nat.digitChar a = Nat.digitChar b → a = b := by decide

/-- The decimal rendering of a number is never empty. -/
theorem decDigits_ne_nil (n : ℕ) : decDigits n ≠ [] := by
  by_cases h : n < 10
  · rw [decDigits_small h]
    simp
  · rw [decDigits_step (not_lt.mp h)]
    simp

/-- Distinct numbers have distinct decimal digit lists. -/
theorem decDigits_injective : ∀ a b : ℕ, decDigits a = decDigits b → a = b := by
  intro a
  induction a using Nat.strong_induction_on with
  | _ a ih =>
    intro b h
    by_cases ha : a < 10 <;> by_cases hb : b < 10
    · rw [decDigits_small ha, decDigits_small hb] at h
      injection h with h1 _
      exact digitChar_inj_lt10 a ha b hb h1
    · rw [decDigits_small ha, decDigits_step (not_lt.mp hb)] at h
      have := congrArg List.length h
      rw [List.length_append, List.length_singleton] at this
      have hne := decDigits_ne_nil (b / 10)
      cases hd : decDigits (b / 10) with
      | nil => exact absurd hd hne
      | cons c cs =>
        rw [hd] at this
        simp at this
    · rw [decDigits_step (not_lt.mp ha), decDigits_small hb] at h
      have := congrArg List.length h
      rw [List.length_append, List.length_singleton] at this
      have hne := decDigits_ne_nil (a / 10)
      cases hd : decDigits (a / 10) with
      | nil => exact absurd hd hne
      | cons c cs =>
        rw [hd] at this
        simp at this
    · rw [decDigits_step (not_lt.mp ha), decDigits_step (not_lt.mp hb)] at h
      obtain ⟨hpre, hsuf⟩ := List.append_inj' h (by rfl)
      have hdiv : a / 10 = b / 10 :=
        ih (a / 10) (Nat.div_lt_self (by omega) (by norm_num)) (b / 10) hpre
      have hmod : a % 10 = b % 10 := by
        injection hsuf with h1 _
        exact digitChar_inj_lt10 (a % 10) (Nat.mod_lt a (by norm_num))
          (b % 10) (Nat.mod_lt b (by norm_num)) h1
      omega

/-- Two strings with the same character data are equal. -/
theorem string_data_inj {s t : String} (h : s.data = t.data) : s = t := by
  cases s
  cases t
  exact congrArg String.mk (by simpa using h)

/-- Rendering `Nat.repr` (hence `toString` on `ℕ`) is injective. -/
theorem natRepr_injective : ∀ a b : ℕ, Nat.repr a = Nat.repr b → a = b := by
  intro a b h
  have hd : (Nat.repr a).data = (Nat.repr b).data := congrArg String.data h
  exact decDigits_injective a b hd

/-- The `sens_var_<n>` stage labels are pairwise distinct. -/
theorem sensVarKey_injective : ∀ a b : ℕ, sensVarKey a = sensVarKey b → a = b := by
  intro a b h
  have hd : ("sens_var_".data ++ (Nat.repr a).data) =
      ("sens_var_".data ++ (Nat.repr b).data) := congrArg String.data h
  exact natRepr_injective a b (string_data_inj (List.append_cancel_left hd))

/-- No stage label collides with the `"Base model"` key. -/
theorem sensVarKey_ne_base (n : ℕ) : sensVarKey n ≠ "Base model" := by
  intro h
  have hd : ("sens_var_".data ++ (Nat.repr n).data) = "Base model".data :=
    congrArg String.data h
  rw [show "sens_var_".data = 's' :: "ens_var_".data from rfl,
    List.cons_append] at hd
  injection hd with h1 _
  exact absurd h1 (by decide)

/-! ### The stage trace of `MultiWasserStein.transform` (C7) -/

/-- A `dict` update with a fresh key appends the new entry. -/
theorem dictUpd_fresh {β : Type} (d : List (String × β)) (k : String) (v : β)
    (h : k ∉ d.map Prod.fst) : dictUpd d k v = d ++ [(k, v)] := by
  unfold dictUpd
  rw [if_neg]
  intro hany
  obtain ⟨p, hp, hpk⟩ := List.any_eq_true.mp hany
  exact h (List.mem_map.mpr ⟨p, hp, of_decide_eq_true hpk⟩)

/-- Embeds `np.quantile(data, q)` with the default linear interpolation:
sort, scale the quantile to the fractional index `q * (n-1)`, and
interpolate between the neighbouring order statistics. -/
def quantileNp (data : List ℚ) (q : ℚ) : ℚ :=
  let s := sortedOf data
  let n := s.length
  if n = 0 then 0
  else
    let h := q * ((n : ℚ) - 1)
    let lo := (⌊h⌋).toNat
    let hi := min (lo + 1) (n - 1)
    s.getD lo 0 + (h - (lo : ℚ)) * (s.getD hi 0 - s.getD lo 0)

/-- Embeds `diff_quantile` (`_fairness_metrics.py`): the maximum absolute
difference of the two empirical quantile functions over the fixed grid
`np.linspace(0, 1, num=100)`.  `np.max` over the (nonempty, nonnegative)
array is folded with neutral element 0. -/
def diffQuantile (data1 data2 : List ℚ) : ℚ :=
  ((List.range 100).map (fun i =>
    |quantileNp data1 ((i : ℚ) / 99) - quantileNp data2 ((i : ℚ) / 99)|)).foldr
    max 0

/-- Embeds `unfairness` (`_fairness_metrics.py`), matrix case: for every
sensitive column and every modality of it, compare the quantile function of
the subgroup's outputs with the whole population's, and take the maximum.
Python's `max` on an empty list raises; the fold returns 0 there instead (no
theorem below depends on that edge). -/
def unfairnessValue {α : Type} [DecidableEq α] [Inhabited α]
    (estimator : List ℚ) (sensitive_features : List (List α)) : ℚ :=
  ((transposeOf sensitive_features).map (fun sens =>
    ((getMod sens).map (fun mod =>
      diffQuantile estimator ((estimator.zip sens).filterMap
        (fun p => if p.2 = mod then some p.1 else none)))).foldr max 0)).foldr
    max 0

/-- Embeds `unfairness_multi` (`_fairness_metrics.py`): enumerate the stage
dict's values in order and key the unfairness of stage `i` by `sens_var_{i}`
(0-indexed, so the base model's entry lands under `sens_var_0`). -/
def unfairnessMulti {α : Type} [DecidableEq α] [Inhabited α]
    (y_fair_dict : List (String × List ℚ))
    (sensitive_features : List (List α)) : List (String × ℚ) :=
  y_fair_dict.enum.map (fun p =>
    (sensVarKey p.1, unfairnessValue p.2.2 sensitive_features))

/-- The keys of `unfairness_multi` are `sens_var_0 .. sens_var_(k-1)` for a
`k`-stage trace, regardless of the trace's own keys. -/
theorem unfairnessMulti_keys {α : Type} [DecidableEq α] [Inhabited α]
    (y_fair_dict : List (String × List ℚ))
    (sensitive_features : List (List α)) :
    (unfairnessMulti y_fair_dict sensitive_features).map Prod.fst =
      (List.range y_fair_dict.length).map sensVarKey := by
  unfold unfairnessMulti
  rw [List.map_map]
  have : (Prod.fst ∘ fun p : ℕ × (String × List ℚ) =>
      (sensVarKey p.1, unfairnessValue p.2.2 sensitive_features)) =
      sensVarKey ∘ Prod.fst := rfl
  rw [this, ← List.map_map, List.enum_map_fst]

/-- Unwinding the per-column loop of `MultiWasserStein.transform` on a
successful run: each column appends exactly one stage entry `sens_var_{i+1}`
to the trace, and the returned vector is the value recorded under the final
stage. -/
theorem multiTransformLoop_trace {α : Type} [DecidableEq α] :
    ∀ (cols : List (List α)) (st : MultiState α) (y_inter : List ℚ) (i : ℕ)
      (jitters : List (List ℚ)) (epsilon : List ℚ) (stOut : MultiState α)
      (out : List ℚ),
      multiTransformLoop st y_inter cols i jitters epsilon = .ok (stOut, out) →
      (∀ j, i < j → sensVarKey j ∉ st.y_fair_test.map Prod.fst) →
      stOut.y_fair_test.map Prod.fst =
        st.y_fair_test.map Prod.fst ++
          (List.range cols.length).map (fun k => sensVarKey (i + 1 + k)) ∧
      (cols = [] → stOut = st ∧ out = y_inter) ∧
      (cols ≠ [] →
        (stOut.y_fair_test.getLast?).map Prod.snd = some out) := by
  intro cols
  induction cols with
  | nil =>
    intro st y i jitters epsilon stOut out hok _
    have h1 : st = stOut ∧ y = out := by
      injection hok with hok
      injection hok with h1 h2
      exact ⟨h1, h2⟩
    refine ⟨by simp [h1.1], fun _ => ⟨h1.1.symm, h1.2.symm⟩, fun h => absurd rfl h⟩
  | cons c rest ih =>
    intro st y i jitters epsilon stOut out hok hfresh
    unfold multiTransformLoop at hok
    cases hs : st.sigma with
    | none =>
      rw [hs] at hok
      exact absurd hok (by simp)
    | some s =>
      rw [hs] at hok
      dsimp only at hok
      cases hg : dictGet? st.calib_all (sensVarKey (i + 1)) with
      | none =>
        rw [hg] at hok
        exact absurd hok (by simp)
      | some calib =>
        rw [hg] at hok
        dsimp only at hok
        cases ht : wassersteinTransformIntended calib y c (jitters.getD i [])
            (epsilon.getD i 0) with
        | error e =>
          rw [ht] at hok
          exact absurd hok (by simp)
        | ok y_next =>
          rw [ht] at hok
          dsimp only at hok
          have hupd : dictUpd st.y_fair_test (sensVarKey (i + 1)) y_next =
              st.y_fair_test ++ [(sensVarKey (i + 1), y_next)] :=
            dictUpd_fresh _ _ _ (hfresh (i + 1) (Nat.lt_succ_self i))
          have hfresh2 : ∀ j, i + 1 < j →
              sensVarKey j ∉
                (st.y_fair_test ++ [(sensVarKey (i + 1), y_next)]).map
                  Prod.fst := by
            intro j hj
            rw [List.map_append]
            intro hmem
            rcases List.mem_append.mp hmem with hmem | hmem
            · exact hfresh j (by omega) hmem
            · have : sensVarKey j = sensVarKey (i + 1) := by simpa using hmem
              have := sensVarKey_injective _ _ this
              omega
          rw [hupd] at hok
          have ih2 := ih
            ⟨some s, st.y_fair_test ++ [(sensVarKey (i + 1), y_next)],
              st.calib_all⟩
            y_next (i + 1) jitters epsilon stOut out hok hfresh2
          obtain ⟨hkeys, hnil, hlast⟩ := ih2
          have hr : (List.range (c :: rest).length).map
              (fun k => sensVarKey (i + 1 + k)) =
              sensVarKey (i + 1) ::
                (List.range rest.length).map
                  (fun k => sensVarKey (i + 1 + 1 + k)) := by
            rw [List.length_cons, List.range_succ_eq_map, List.map_cons,
              List.map_map]
            congr 1
            apply List.map_congr_left
            intro a _
            show sensVarKey (i + 1 + (a + 1)) = sensVarKey (i + 1 + 1 + a)
            have harith : i + 1 + (a + 1) = i + 1 + 1 + a := by omega
            rw [harith]
          refine ⟨?_, fun h => absurd h (by simp), fun _ => ?_⟩
          · rw [hkeys, hr]
            show (st.y_fair_test ++ [(sensVarKey (i + 1), y_next)]).map Prod.fst
              ++ _ = _
            rw [List.map_append, List.append_assoc]
            rfl
          · cases hrest : rest with
            | nil =>
              obtain ⟨hst, hout⟩ := hnil hrest
              rw [hst, hout]
              show ((st.y_fair_test ++ [(sensVarKey (i + 1), y_next)]).getLast?).map
                Prod.snd = _
              rw [List.getLast?_concat]
              rfl
            | cons r rs =>
              exact hlast (by rw [hrest]; simp)

/-- The number of columns produced by transposition. -/
theorem transposeOf_length {α : Type} [Inhabited α] (x : List (List α)) :
    (transposeOf x).length = (x.headD []).length := by
  simp [transposeOf]

/-- C7, amended.  No real `MultiWasserStein.transform` call records or
returns anything: every call raises `TypeError` at the under-applied
`_check_epsilon_size` call (line 282) before `"Base model"` is written
(first conjunct).  The recording statements the source contains (lines
284-298), embedded as `multiTransformIntended`, follow the claimed
convention: on every successful intended run from a fresh trace, the trace
(returned verbatim by `get_sequential_fairness`) is keyed `"Base model"`
followed by `sens_var_<i>` for `i = 1 .. n` in column order, and the
returned vector is the one recorded under the final stage.  But
`unfairness_multi` — live code — relabels the stages `sens_var_<i>` with `i`
0-indexed over the trace in order, so the unadjusted vector's unfairness
appears under `"sens_var_0"`, not under `"Base model"` (the claim asserted
the same `"Base model"`-led convention there; `claim7_counterexample`
refutes that). -/
theorem claim7_stage_keys {α : Type} [DecidableEq α] [Inhabited α]
    (st : MultiState α) (y_test : List ℚ) (x_sa_test : List (List α))
    (jitters : List (List ℚ)) (epsilonOpt : Option (List ℚ))
    (stOut : MultiState α) (out : List ℚ)
    (sensitive_features : List (List α))
    (hfresh : st.y_fair_test = [])
    (hok : multiTransformIntended st y_test x_sa_test jitters epsilonOpt =
      .ok (stOut, out)) :
    multiTransform st y_test x_sa_test jitters epsilonOpt =
      .error .typeError ∧
    (getSequentialFairness stOut).map Prod.fst =
      "Base model" ::
        (List.range (x_sa_test.headD []).length).map
          (fun k => sensVarKey (k + 1)) ∧
    ((getSequentialFairness stOut).getLast?).map Prod.snd = some out ∧
    (unfairnessMulti (getSequentialFairness stOut) sensitive_features).map
        Prod.fst =
      (List.range ((x_sa_test.headD []).length + 1)).map sensVarKey := by
  refine And.intro rfl ?_
  simp only [multiTransformIntended] at hok
  by_cases h1 : (epsilonOpt.getD
      (List.replicate (x_sa_test.headD []).length 0)).length ≠
      (x_sa_test.headD []).length
  · rw [if_pos h1] at hok
    exact absurd hok (by simp)
  · rw [if_neg h1] at hok
    by_cases h2 : (x_sa_test.headD []).length = 0
    · rw [if_pos h2] at hok
      exact absurd hok (by simp)
    · rw [if_neg h2] at hok
      have hbase : dictUpd st.y_fair_test "Base model" y_test =
          [("Base model", y_test)] := by
        rw [hfresh]
        rfl
      rw [hbase] at hok
      have hcols : (transposeOf x_sa_test).length =
          (x_sa_test.headD []).length := transposeOf_length x_sa_test
      have hcolsne : transposeOf x_sa_test ≠ [] := by
        intro h
        rw [h, List.length_nil] at hcols
        omega
      have htr := multiTransformLoop_trace (transposeOf x_sa_test)
        ⟨st.sigma, [("Base model", y_test)], st.calib_all⟩ y_test 0 jitters
        (epsilonOpt.getD (List.replicate (x_sa_test.headD []).length 0))
        stOut out hok ?_
      · obtain ⟨hkeys, -, hlast⟩ := htr
        have hkeys2 : stOut.y_fair_test.map Prod.fst =
            "Base model" ::
              (List.range (x_sa_test.headD []).length).map
                (fun k => sensVarKey (k + 1)) := by
          rw [hkeys, hcols]
          simp only [List.map_cons, List.map_nil, List.singleton_append]
          congr 1
          apply List.map_congr_left
          intro a _
          show sensVarKey (0 + 1 + a) = sensVarKey (a + 1)
          congr 1
          omega
        refine ⟨hkeys2, hlast hcolsne, ?_⟩
        rw [unfairnessMulti_keys]
        have hlen : (getSequentialFairness stOut).length =
            (x_sa_test.headD []).length + 1 := by
          have := congrArg List.length hkeys2
          rw [List.length_map, List.length_cons, List.length_map,
            List.length_range] at this
          exact this
        rw [hlen]
      · intro j hj hmem
        rw [show ((⟨st.sigma, [("Base model", y_test)], st.calib_all⟩ :
            MultiState α)).y_fair_test = [("Base model", y_test)] from rfl]
          at hmem
        simp only [List.map_cons, List.map_nil] at hmem
        exact sensVarKey_ne_base j (by simpa using hmem)

/-- Counterexample to C7 as stated: `unfairness_multi` keys its output
`sens_var_0`, `sens_var_1`, ... — the unfairness of the unadjusted
(`"Base model"`) stage is recorded under `"sens_var_0"`, and no entry uses
the key `"Base model"`. -/
theorem claim7_counterexample :
    (unfairnessMulti [("Base model", [0, 1]), ("sens_var_1", [1, 1])]
        ([[5], [5]] : List (List ℕ))).map Prod.fst =
      ["sens_var_0", "sens_var_1"] ∧
    "Base model" ∉
      (unfairnessMulti [("Base model", [0, 1]), ("sens_var_1", [1, 1])]
        ([[5], [5]] : List (List ℕ))).map Prod.fst := by
  have h := unfairnessMulti_keys (α := ℕ)
    [("Base model", [0, 1]), ("sens_var_1", [1, 1])] [[5], [5]]
  rw [h]
  exact ⟨rfl, by decide⟩

/-- A fitted-like `MultiWasserStein` state with `sigma` assigned and one
cached per-column calibration state, used to witness a successful
transform run. -/
def c7State : MultiState ℕ :=
  ⟨some 1, [],
    [("sens_var_1", CalibState.mk [1] (fun _ => 1) (fun _ t => t)
      (fun _ q => q))]⟩

/-- The result of the witnessing intended-transform run. -/
def c7Out : MultiState ℕ × List ℚ :=
  (multiTransformIntended c7State [2, 3] [[1], [1]] [[0, 0]]
    (some [0])).toOption.getD (⟨none, [], []⟩, [])

/-- Witness for the amended C7: a concrete intended run that succeeds (while
the code as written raises the type error on the same input), with trace
keyed `["Base model", "sens_var_1"]`, the final stage's vector returned, and
`unfairness_multi` keys `["sens_var_0", "sens_var_1"]`. -/
theorem claim7_stage_keys_witness :
    c7State.y_fair_test = [] ∧
      multiTransformIntended c7State [2, 3] [[1], [1]] [[0, 0]] (some [0]) =
        .ok c7Out ∧
      multiTransform c7State [2, 3] [[1], [1]] [[0, 0]] (some [0]) =
        .error .typeError ∧
      (getSequentialFairness c7Out.1).map Prod.fst =
        "Base model" ::
          (List.range (([[1], [1]] : List (List ℕ)).headD []).length).map
            (fun k => sensVarKey (k + 1)) ∧
      ((getSequentialFairness c7Out.1).getLast?).map Prod.snd = some c7Out.2 ∧
      (unfairnessMulti (getSequentialFairness c7Out.1)
          ([[1], [1]] : List (List ℕ))).map Prod.fst =
        (List.range ((([[1], [1]] : List (List ℕ)).headD []).length + 1)).map
          sensVarKey := by
  have hok : multiTransformIntended c7State [2, 3] [[1], [1]] [[0, 0]]
      (some [0]) = Except.ok (c7Out.1, c7Out.2) := by
    rw [Prod.mk.eta]
    exact rfl
  have h := claim7_stage_keys c7State [2, 3] [[1], [1]] [[0, 0]] (some [0])
    c7Out.1 c7Out.2 [[1], [1]] rfl hok
  exact ⟨rfl, by rw [Prod.mk.eta] at hok; exact hok, h.1, h.2.1, h.2.2.1,
    h.2.2.2⟩
